import Mathlib

/-!
# Verification of the `SqlDB` storage engine (`src/nni_manager/core/sqlDatabase.ts`)

This file gives a shallow embedding, in Lean 4, of the sqlite-backed storage
engine of the nni manager: the JSON codec it relies on (`JSON.stringify` /
`JSON.parse`), the row (de)serialization functions, the store/query
operations, the callback-to-future bridge `SqlDB.resolve`, and the lazy
single-flight `SqlDB.init` protocol.  Asynchronous driver callbacks are
modelled synchronously: each operation takes the driver's outcome (error,
rows) as explicit parameters and returns the final state of its deferred.
Machine-level concerns that the source never exercises (sqlite column
affinity, float-valued JSON numbers) are outside the model: JSON numbers are
embedded as integers.

Theorems at the end of the file settle the frozen claims about this module.
-/

/-! ## JSON values

The TypeScript source manipulates JSON through `JSON.stringify` and
`JSON.parse`.  We embed JSON documents as an inductive type (numbers as
integers) and give an executable serializer and parser modelling the two
library functions; `jsonParse_jsonStringify` below proves the round trip the
source relies on. -/

inductive Json where
  | null : Json
  | bool (b : Bool) : Json
  | num (n : Int) : Json
  | str (s : String) : Json
  | arr (elems : List Json) : Json
  | obj (members : List (String × Json)) : Json

/-- The decimal digit characters `'0'`–`'9'` (only used for `d < 10`). -/
def digitChar : Nat → Char
  | 0 => '0' | 1 => '1' | 2 => '2' | 3 => '3' | 4 => '4'
  | 5 => '5' | 6 => '6' | 7 => '7' | 8 => '8' | _ => '9'

/-- Decimal digits of `n`, most significant first, prepended to `acc`;
`fuel` bounds the recursion depth (any `fuel > n` is enough). -/
def natDigitsAux : Nat → Nat → List Char → List Char
  | 0, _, acc => acc
  | fuel+1, n, acc =>
    if n < 10 then digitChar n :: acc
    else natDigitsAux fuel (n / 10) (digitChar (n % 10) :: acc)

/-- Decimal representation of a natural number, as characters. -/
def natToChars (n : Nat) : List Char := natDigitsAux (n + 1) n []

/-- Decimal representation of an integer (a leading `'-'` when negative),
matching how `JSON.stringify` prints integral numbers. -/
def intToChars : Int → List Char
  | .ofNat n => natToChars n
  | .negSucc m => '-' :: natToChars (m + 1)

/-- The characters of the keyword `null`. -/
def nullChars : List Char := ['n','u','l','l']

/-- The characters of the keyword `true`. -/
def trueChars : List Char := ['t','r','u','e']

/-- The characters of the keyword `false`. -/
def falseChars : List Char := ['f','a','l','s','e']

/-- JSON string escaping of one character: `'"'` and `'\'` get a backslash,
every other character is emitted verbatim. -/
def escapeChar (c : Char) : List Char :=
  if c = '"' ∨ c = '\\' then ['\\', c] else [c]

/-- JSON string escaping of a character sequence. -/
def escapeChars : List Char → List Char
  | [] => []
  | c :: cs => escapeChar c ++ escapeChars cs

mutual

/-- Serialization of a JSON value, modelling `JSON.stringify` (no
whitespace, double-quoted strings, decimal integers). -/
def stringifyChars : Json → List Char
  | .null => nullChars
  | .bool true => trueChars
  | .bool false => falseChars
  | .num n => intToChars n
  | .str s => '"' :: (escapeChars s.data ++ ['"'])
  | .arr xs => '[' :: (stringifyElems xs ++ [']'])
  | .obj ms => '\x7b' :: (stringifyMembers ms ++ ['\x7d'])

/-- Comma-separated serialization of array elements (no brackets). -/
def stringifyElems : List Json → List Char
  | [] => []
  | [x] => stringifyChars x
  | x :: y :: xs => stringifyChars x ++ ',' :: stringifyElems (y :: xs)

/-- Comma-separated serialization of object members (no braces). -/
def stringifyMembers : List (String × Json) → List Char
  | [] => []
  | [(k, v)] => '"' :: (escapeChars k.data ++ '"' :: ':' :: stringifyChars v)
  | (k, v) :: m :: ms =>
    '"' :: (escapeChars k.data ++ '"' :: ':' :: stringifyChars v)
      ++ ',' :: stringifyMembers (m :: ms)

end

/-- `JSON.stringify` on a JSON document. -/
def jsonStringify (j : Json) : String := String.mk (stringifyChars j)

/-- `c` is a decimal digit character. -/
def isDigitC (c : Char) : Bool := 48 ≤ c.toNat && c.toNat ≤ 57

/-- Numeric value of a digit character. -/
def digitVal (c : Char) : Nat := c.toNat - 48

/-- Value of a sequence of decimal digit characters (most significant
first). -/
def charsVal (cs : List Char) : Nat :=
  cs.foldl (fun a c => 10 * a + digitVal c) 0

/-- Parse a nonempty maximal run of decimal digits; fails when the input
does not start with a digit. -/
def parseNat (cs : List Char) : Option (Nat × List Char) :=
  match cs.takeWhile isDigitC with
  | [] => none
  | ds => some (charsVal ds, cs.dropWhile isDigitC)

/-- If `lit` is a prefix of the input, return the remainder. -/
def dropLit : List Char → List Char → Option (List Char)
  | [], cs => some cs
  | l :: ls, c :: cs => if c = l then dropLit ls cs else none
  | _ :: _, [] => none

/-- Parse the body of a JSON string (after the opening quote), up to and
including the closing quote; understands the `\"` and `\\` escapes produced
by `escapeChars`. -/
def parseStrChars : List Char → Option (List Char × List Char)
  | [] => none
  | c :: rest =>
    if c = '"' then some ([], rest)
    else if c = '\\' then
      match rest with
      | [] => none
      | c2 :: rest2 =>
        if c2 = '"' ∨ c2 = '\\' then
          (parseStrChars rest2).map (fun p => (c2 :: p.1, p.2))
        else none
    else (parseStrChars rest).map (fun p => (c :: p.1, p.2))

mutual

/-- Parse one JSON value; `fuel` bounds the nesting drill-down (the
top-level entry point supplies more fuel than any input can consume). -/
def parseValue : Nat → List Char → Option (Json × List Char)
  | 0, _ => none
  | fuel+1, cs =>
    match cs with
    | [] => none
    | c :: rest =>
      if c = 'n' then (dropLit ['u','l','l'] rest).map (fun r => (Json.null, r))
      else if c = 't' then (dropLit ['r','u','e'] rest).map (fun r => (Json.bool true, r))
      else if c = 'f' then (dropLit ['a','l','s','e'] rest).map (fun r => (Json.bool false, r))
      else if c = '"' then
        (parseStrChars rest).map (fun p => (Json.str (String.mk p.1), p.2))
      else if c = '[' then
        match rest with
        | [] => none
        | r1 :: rest2 =>
          if r1 = ']' then some (Json.arr [], rest2)
          else (parseElems fuel rest).map (fun p => (Json.arr p.1, p.2))
      else if c = '\x7b' then
        match rest with
        | [] => none
        | r1 :: rest2 =>
          if r1 = '\x7d' then some (Json.obj [], rest2)
          else (parseMembers fuel rest).map (fun p => (Json.obj p.1, p.2))
      else if c = '-' then
        (parseNat rest).map (fun p => (Json.num (-(p.1 : Int)), p.2))
      else (parseNat cs).map (fun p => (Json.num (p.1 : Int), p.2))

/-- Parse a nonempty comma-separated element list up to and including the
closing `']'`. -/
def parseElems : Nat → List Char → Option (List Json × List Char)
  | 0, _ => none
  | fuel+1, cs =>
    match parseValue fuel cs with
    | none => none
    | some (x, r) =>
      match r with
      | [] => none
      | c :: r2 =>
        if c = ',' then (parseElems fuel r2).map (fun p => (x :: p.1, p.2))
        else if c = ']' then some ([x], r2)
        else none

/-- Parse a nonempty comma-separated member list up to and including the
closing `'}'`. -/
def parseMembers : Nat → List Char → Option (List (String × Json) × List Char)
  | 0, _ => none
  | fuel+1, cs =>
    match cs with
    | [] => none
    | c :: rest =>
      if c = '"' then
        match parseStrChars rest with
        | none => none
        | some (kcs, r) =>
          match r with
          | [] => none
          | c2 :: r2 =>
            if c2 = ':' then
              match parseValue fuel r2 with
              | none => none
              | some (v, r3) =>
                match r3 with
                | [] => none
                | c3 :: r4 =>
                  if c3 = ',' then
                    (parseMembers fuel r4).map
                      (fun p => ((String.mk kcs, v) :: p.1, p.2))
                  else if c3 = '\x7d' then some ([(String.mk kcs, v)], r4)
                  else none
            else none
      else none

end

/-- `JSON.parse`: parse an entire string as one JSON document; `none`
models the `SyntaxError` the library function throws on malformed input. -/
def jsonParse (s : String) : Option Json :=
  match parseValue (s.data.length + 1) s.data with
  | some (j, []) => some j
  | _ => none

/-- The input starts with a decimal digit. -/
def headDigit : List Char → Bool
  | [] => false
  | c :: _ => isDigitC c

mutual

/-- Fuel sufficient for `parseValue` to parse the serialization of `j`. -/
def jfuel : Json → Nat
  | .null => 1
  | .bool _ => 1
  | .num _ => 1
  | .str _ => 1
  | .arr xs => 1 + lfuel xs
  | .obj ms => 1 + mfuel ms

/-- Fuel sufficient for `parseElems` on the serialization of `xs`. -/
def lfuel : List Json → Nat
  | [] => 0
  | x :: xs => 1 + max (jfuel x) (lfuel xs)

/-- Fuel sufficient for `parseMembers` on the serialization of `ms`. -/
def mfuel : List (String × Json) → Nat
  | [] => 0
  | (_, v) :: ms => 1 + max (jfuel v) (mfuel ms)

end

/-! ## Domain model: errors, SQL values, rows, records

Row structures carry the column shapes this module's own inserts produce
(the database file is created and populated exclusively by this module). -/

/-- An error object surfaced by the sqlite3 driver (error-first callbacks). -/
structure SqlError where
  message : String
deriving DecidableEq

/-- A JavaScript exception escaping synchronously from a method call. -/
inductive JsError where
  | assertionFailed
  | jsonParseError
  | typeError
deriving DecidableEq

/-- A primitive sqlite cell value as bound by the driver. -/
inductive SqlValue where
  | intV (n : Int)
  | textV (s : String)
deriving DecidableEq

/-- A JavaScript `Date`, by its epoch-millisecond value. -/
structure JsDate where
  ms : Int
deriving DecidableEq

/-- Final state of an operation's `Deferred` once the driver callback has
run.  `stuck` models a callback that raised, so the deferred never settles
(in `SqlDB.resolve` this happens when iterating `undefined` rows, or — via
`settleLoads` — when a row loader throws). -/
inductive PromState (T : Type) where
  | rejected (e : SqlError)
  | resolvedVoid
  | resolvedList (data : List T)
  | stuck

/-- A row of the `ExperimentProfile` table as produced by
`storeExperimentProfile`: `params` is always text, the two time columns are
integer or NULL. -/
structure ExpRow where
  params : String
  id : String
  execDuration : Int
  startTime : Option Int
  endTime : Option Int
  revision : Int
deriving DecidableEq

/-- A row of the `TrialJobEvent` table as produced by
`storeTrialJobEvent`. -/
structure TrialJobEventRow where
  timestamp : Int
  trialJobId : String
  event : String
  data : Option String
  logPath : Option String
deriving DecidableEq

/-- A row of the `MetricData` table as produced by `storeMetricData`: the
correlation columns hold whatever the parsed envelope carried (NULL when the
field was absent or null). -/
structure MetricDataRow where
  timestamp : Int
  trialJobId : Option SqlValue
  parameterId : Option SqlValue
  type : Option SqlValue
  sequence : Option SqlValue
  data : Option SqlValue
deriving DecidableEq

/-- The manager-level `ExperimentProfile` record. -/
structure ExperimentProfile where
  params : Json
  id : String
  execDuration : Int
  startTime : Option JsDate
  endTime : Option JsDate
  revision : Int

/-- The record shape delivered by `queryTrialJobEvent`. -/
structure TrialJobEventRecord where
  timestamp : JsDate
  trialJobId : String
  event : String
  data : Option String
  logPath : Option String
deriving DecidableEq

/-- The record shape delivered by `queryMetricData` (columns are passed
through verbatim, only `timestamp` is wrapped in a `Date`). -/
structure MetricDataRecord where
  timestamp : JsDate
  trialJobId : Option SqlValue
  parameterId : Option SqlValue
  type : Option SqlValue
  sequence : Option SqlValue
  data : Option SqlValue
deriving DecidableEq

/-- The contents of the three tables of the database file, in rowid
(insertion) order. -/
structure DBState where
  experimentProfiles : List ExpRow
  trialJobEvents : List TrialJobEventRow
  metricData : List MetricDataRow
deriving DecidableEq

/-- The DDL script `createTables` (source lines 39–56). -/
def createTables : String :=
  "\ncreate table TrialJobEvent (timestamp integer, trialJobId text, event text, data text, logPath text);\ncreate index TrialJobEvent_trialJobId on TrialJobEvent(trialJobId);\ncreate index TrialJobEvent_event on TrialJobEvent(event);\n\ncreate table MetricData (timestamp integer, trialJobId text, parameterId text, type text, sequence integer, data text);\ncreate index MetricData_trialJobId on MetricData(trialJobId);\ncreate index MetricData_type on MetricData(type);\n\ncreate table ExperimentProfile (\n    params text,\n    id text,\n    execDuration integer,\n    startTime integer,\n    endTime integer,\n    revision integer);\ncreate index ExperimentProfile_id on ExperimentProfile(id);\n"

/-! ## Row loaders (source lines 58–88) -/

/-- `loadExperimentProfile`: `JSON.parse` on the stored params column
(`none` models the exception thrown on malformed stored JSON), `Date`
reconstruction of the nullable time columns (NULL becomes `undefined`). -/
def loadExperimentProfile (row : ExpRow) : Option ExperimentProfile :=
  (jsonParse row.params).map (fun ps =>
    { params := ps
      id := row.id
      execDuration := row.execDuration
      startTime := row.startTime.map JsDate.mk
      endTime := row.endTime.map JsDate.mk
      revision := row.revision })

/-- `loadTrialJobEvent`: wraps the timestamp in a `Date`; NULL `data` and
`logPath` become `undefined` (both are `none` here). -/
def loadTrialJobEvent (row : TrialJobEventRow) : TrialJobEventRecord :=
  { timestamp := ⟨row.timestamp⟩
    trialJobId := row.trialJobId
    event := row.event
    data := row.data
    logPath := row.logPath }

/-- `loadMetricData`: wraps the timestamp in a `Date` and passes every other
column through verbatim — in particular `data` stays the stored string. -/
def loadMetricData (row : MetricDataRow) : MetricDataRecord :=
  { timestamp := ⟨row.timestamp⟩
    trialJobId := row.trialJobId
    parameterId := row.parameterId
    type := row.type
    sequence := row.sequence
    data := row.data }

/-! ## The callback-to-future bridge and the store/query operations -/

/-- `SqlDB.resolve` (source lines 240–262): rejects when the driver
delivered an error (ignoring any rows); otherwise resolves a void future
when no row loader was supplied, and else pushes every raw row through the
loader in order.  Iterating `undefined` rows would throw a `TypeError`
inside the callback, so the deferred never settles (`stuck`). -/
def SqlDB.resolve {R T : Type} (error : Option SqlError) (rows : Option (List R))
    (rowLoader : Option (R → T)) : PromState T :=
  match error with
  | some e => .rejected e
  | none =>
    match rowLoader with
    | none => .resolvedVoid
    | some loader =>
      match rows with
      | some rs => .resolvedList (rs.map loader)
      | none => .stuck

/-- Sequence a list of optional values: `none` as soon as one is `none`. -/
def sequenceOptions {T : Type} : List (Option T) → Option (List T)
  | [] => some []
  | none :: _ => none
  | some v :: xs => (sequenceOptions xs).map (fun vs => v :: vs)

/-- Resolution through a loader that can throw (an `Option`-valued loader):
if every row loads the future resolves with the loaded list; a loader
exception escapes the driver callback and the deferred never settles. -/
def settleLoads {T : Type} : PromState (Option T) → PromState T
  | .rejected e => .rejected e
  | .resolvedVoid => .resolvedVoid
  | .stuck => .stuck
  | .resolvedList l =>
    match sequenceOptions l with
    | some xs => .resolvedList xs
    | none => .stuck

/-- `storeExperimentProfile` (lines 129–144): serializes `params` with
`JSON.stringify`, converts the optional dates to epoch milliseconds or
NULL, inserts one row, and resolves the future via `SqlDB.resolve` with the
run callback's (successful) result. -/
def SqlDB.storeExperimentProfile (db : DBState) (exp : ExperimentProfile) :
    DBState × PromState Unit :=
  let row : ExpRow :=
    { params := jsonStringify exp.params
      id := exp.id
      execDuration := exp.execDuration
      startTime := exp.startTime.map JsDate.ms
      endTime := exp.endTime.map JsDate.ms
      revision := exp.revision }
  ({ db with experimentProfiles := db.experimentProfiles ++ [row] },
    @SqlDB.resolve ExpRow Unit none none none)

/-- The SQL ordering `order by revision DESC` compares rows by their stored
revision, larger first. -/
def revDesc (a b : ExpRow) : Prop := b.revision ≤ a.revision

instance : DecidableRel revDesc := fun _ b => Int.decLe b.revision _

instance : IsTotal ExpRow revDesc := ⟨fun a b => le_total b.revision a.revision⟩

instance : IsTrans ExpRow revDesc := ⟨fun _ _ _ hab hbc => le_trans hbc hab⟩

/-- `queryExperimentProfile` (lines 146–163): without a revision, selects
the rows with the given id ordered by revision descending; with a revision,
selects the exact id/revision matches in table order; then resolves through
`SqlDB.resolve` with `loadExperimentProfile`. -/
def SqlDB.queryExperimentProfile (db : DBState) (experimentId : String)
    (revision : Option Int) : PromState ExperimentProfile :=
  let rows : List ExpRow :=
    match revision with
    | none =>
      (db.experimentProfiles.filter (fun r => r.id == experimentId)).insertionSort revDesc
    | some rev =>
      db.experimentProfiles.filter (fun r => r.id == experimentId && r.revision == rev)
  settleLoads (SqlDB.resolve none (some rows) (some loadExperimentProfile))

/-- Outcome of an `async` method: the value it returns, the rejection it
forwards, or no settlement at all. -/
inductive AsyncOutcome (α : Type) where
  | resolved (v : α)
  | rejected (e : SqlError)
  | stuck

/-- `queryLatestExperimentProfile` (lines 165–169): awaits the unfiltered
query and returns `profiles[0]` — which is `undefined` (`none`) when no row
matched. -/
def SqlDB.queryLatestExperimentProfile (db : DBState) (experimentId : String) :
    AsyncOutcome (Option ExperimentProfile) :=
  match SqlDB.queryExperimentProfile db experimentId none with
  | .resolvedList profiles => .resolved profiles.head?
  | .rejected e => .rejected e
  | .resolvedVoid => .stuck
  | .stuck => .stuck

/-- `storeTrialJobEvent` (lines 171–179): inserts one row stamped with
`Date.now()` (the `now` parameter); absent optional arguments are stored as
NULL. -/
def SqlDB.storeTrialJobEvent (db : DBState) (now : Int) (event : String)
    (trialJobId : String) (data : Option String) (logPath : Option String) :
    DBState × PromState Unit :=
  let row : TrialJobEventRow :=
    { timestamp := now
      trialJobId := trialJobId
      event := event
      data := data
      logPath := logPath }
  ({ db with trialJobEvents := db.trialJobEvents ++ [row] },
    @SqlDB.resolve TrialJobEventRow Unit none none none)

/-- `queryTrialJobEvent` (lines 181–203): one of four SQL shapes depending
on which optional filters are present, resolved through `SqlDB.resolve`
with `loadTrialJobEvent`. -/
def SqlDB.queryTrialJobEvent (db : DBState) (trialJobId : Option String)
    (event : Option String) : PromState TrialJobEventRecord :=
  let rows : List TrialJobEventRow :=
    match trialJobId, event with
    | none, none => db.trialJobEvents
    | none, some e => db.trialJobEvents.filter (fun r => r.event == e)
    | some t, none => db.trialJobEvents.filter (fun r => r.trialJobId == t)
    | some t, some e => db.trialJobEvents.filter (fun r => r.trialJobId == t && r.event == e)
  SqlDB.resolve none (some rows) (some loadTrialJobEvent)

/-- First member with the given key of a parsed JSON object. -/
def lookupMember : List (String × Json) → String → Option Json
  | [], _ => none
  | (k', v) :: ms, k => if k' == k then some v else lookupMember ms k

/-- JavaScript property access `json.field` on a parsed JSON value: throws
a `TypeError` on `null`, yields the member (or `undefined`) on an object,
and `undefined` on any other primitive or array. -/
def jsGetField (j : Json) (k : String) : Except JsError (Option Json) :=
  match j with
  | .null => .error .typeError
  | .obj ms => .ok (lookupMember ms k)
  | _ => .ok none

/-- node-sqlite3 parameter binding for a value taken off a parsed JSON
document: `undefined` and `null` bind NULL, numbers bind integers, booleans
bind 0/1, strings bind text; arrays and objects are not bindable and
surface as an error in the run callback. -/
def bindJsValue : Option Json → Except SqlError (Option SqlValue)
  | none => .ok none
  | some .null => .ok none
  | some (.num n) => .ok (some (.intV n))
  | some (.str s) => .ok (some (.textV s))
  | some (.bool b) => .ok (some (.intV (if b then 1 else 0)))
  | some (.arr _) => .error ⟨"SQLITE_ERROR: unsupported parameter type"⟩
  | some (.obj _) => .error ⟨"SQLITE_ERROR: unsupported parameter type"⟩

/-- `storeMetricData` (lines 205–214): `JSON.parse` on the serialized
envelope — a parse failure throws synchronously, before any future is
created; reading the fields off the parsed value throws a `TypeError` when
the envelope is `null`; the payload `json.data` is re-serialized with
`JSON.stringify` (`undefined` when absent); the row is stamped with
`Date.now()` (the `now` parameter).  The `trialJobId` parameter is never
read — the stored trialJobId comes from the envelope.  No field validation
is performed. -/
def SqlDB.storeMetricData (db : DBState) (now : Int) (trialJobId : String)
    (data : String) : Except JsError (DBState × PromState Unit) := do
  let json ← match jsonParse data with
    | none => Except.error JsError.jsonParseError
    | some j => Except.ok j
  let tid ← jsGetField json "trialJobId"
  let pid ← jsGetField json "parameterId"
  let ty ← jsGetField json "type"
  let seq ← jsGetField json "sequence"
  let d ← jsGetField json "data"
  let dataArg : Option Json := d.map (fun dj => Json.str (jsonStringify dj))
  match bindJsValue tid, bindJsValue pid, bindJsValue ty, bindJsValue seq,
      bindJsValue dataArg with
  | .ok b1, .ok b2, .ok b3, .ok b4, .ok b5 =>
    Except.ok
      ({ db with metricData := db.metricData ++
          [{ timestamp := now, trialJobId := b1, parameterId := b2, type := b3,
             sequence := b4, data := b5 }] },
        @SqlDB.resolve MetricDataRow Unit none none none)
  | _, _, _, _, _ =>
    Except.ok (db,
      @SqlDB.resolve MetricDataRow Unit
        (some ⟨"SQLITE_ERROR: unsupported parameter type"⟩) none none)

/-- `queryMetricData` (lines 216–238): one of four SQL shapes depending on
which optional filters are present, resolved through `SqlDB.resolve` with
`loadMetricData`. -/
def SqlDB.queryMetricData (db : DBState) (trialJobId : Option String)
    (metricType : Option String) : PromState MetricDataRecord :=
  let rows : List MetricDataRow :=
    match trialJobId, metricType with
    | none, none => db.metricData
    | none, some m => db.metricData.filter (fun r => r.type == some (SqlValue.textV m))
    | some t, none =>
      db.metricData.filter (fun r => r.trialJobId == some (SqlValue.textV t))
    | some t, some m =>
      db.metricData.filter (fun r =>
        r.trialJobId == some (SqlValue.textV t) && r.type == some (SqlValue.textV m))
  SqlDB.resolve none (some rows) (some loadMetricData)

/-! ## Lazy single-flight initialization (source lines 90–120) -/

/-- Settled state of the shared `initTask` deferred. -/
inductive DeferredVoidState where
  | pending
  | resolved
  | rejected (e : SqlError)
deriving DecidableEq

/-- Identity (allocation token of the `new Deferred()`) and state of the
instance's `initTask`. -/
structure InitTaskInfo where
  id : Nat
  outcome : DeferredVoidState
deriving DecidableEq

/-- Environment of one `init` call: whether `fs.existsSync(dbDir)` holds,
and the errors (if any) the driver would deliver to the open callback and
to the exec callback. -/
structure InitEnv where
  dirExists : Bool
  openErr : Option SqlError
  execErr : Option SqlError
deriving DecidableEq

/-- A call into the sqlite3 driver performed by `init`. -/
inductive DriverAction where
  | openDb (mode : Nat) (file : String)
  | execScript (script : String)
deriving DecidableEq

def sqlite3OpenReadWrite : Nat := 2

def sqlite3OpenCreate : Nat := 4

/-- What one `init` call did: the updated `initTask` field, the identity of
the promise it returned (`none` when the `assert` threw before returning),
and the driver calls it performed. -/
structure InitCallResult where
  st : Option InitTaskInfo
  returned : Option Nat
  actions : List DriverAction
deriving DecidableEq

/-- A void deferred settled through `SqlDB.resolve` (no loader: it either
rejects or resolves). -/
def bridgeVoid : PromState Unit → DeferredVoidState
  | .rejected e => .rejected e
  | _ => .resolved

/-- `SqlDB.init` (lines 94–120).  Returns the shared promise immediately
when `initTask` is already set.  Otherwise it allocates the deferred
(identity `freshId`), asserts the directory exists (a failing assert throws
synchronously, leaving the fresh task pending forever), opens the file with
the mode derived from `createNew`, and runs the open callback: an open
error rejects via `SqlDB.resolve`; on success with `createNew` it executes
the DDL script, whose callback calls `this.resolve(this.initTask, err)`
with the OUTER `err` variable — the exec callback's own `error` parameter
(`env.execErr`) is ignored by the source, so the task resolves even when
the DDL script failed; without `createNew` the task resolves directly. -/
def SqlDB.init (st : Option InitTaskInfo) (freshId : Nat) (createNew : Bool)
    (dbDir : String) (env : InitEnv) : InitCallResult :=
  match st with
  | some t => { st := some t, returned := some t.id, actions := [] }
  | none =>
    if env.dirExists = false then
      { st := some { id := freshId, outcome := .pending }, returned := none, actions := [] }
    else
      let mode : Nat :=
        if createNew then sqlite3OpenCreate ||| sqlite3OpenReadWrite
        else sqlite3OpenReadWrite
      let dbFileName : String := dbDir ++ "/nni.sqlite"
      match env.openErr with
      | some e =>
        let task : InitTaskInfo :=
          { id := freshId,
            outcome := bridgeVoid (@SqlDB.resolve Unit Unit (some e) none none) }
        { st := some task,
          returned := some freshId,
          actions := [.openDb mode dbFileName] }
      | none =>
        if createNew then
          let task : InitTaskInfo :=
            { id := freshId,
              outcome := bridgeVoid (@SqlDB.resolve Unit Unit none none none) }
          { st := some task,
            returned := some freshId,
            actions := [.openDb mode dbFileName, .execScript createTables] }
        else
          { st := some { id := freshId, outcome := .resolved },
            returned := some freshId,
            actions := [.openDb mode dbFileName] }

/-- Run a sequence of `init` calls against one store instance, allocating
fresh deferred identities `i, i+1, …`; returns the per-call results. -/
def SqlDB.runInits : Option InitTaskInfo → Nat → List (Bool × String × InitEnv) →
    List InitCallResult
  | _, _, [] => []
  | st, i, (c, d, env) :: rest =>
    let r := SqlDB.init st i c d env
    r :: SqlDB.runInits r.st (i + 1) rest

/-! ## Claim-side vocabulary -/

/-- Is this driver action a file open? -/
def isOpenAction : DriverAction → Bool
  | .openDb _ _ => true
  | .execScript _ => false

/-- Is this driver action a DDL-script execution? -/
def isExecAction : DriverAction → Bool
  | .openDb _ _ => false
  | .execScript _ => true

/-- Number of file-open driver calls in an action list. -/
def countOpens (l : List DriverAction) : Nat := (l.filter isOpenAction).length

/-- Number of DDL-script executions in an action list. -/
def countExecs (l : List DriverAction) : Nat := (l.filter isExecAction).length

/-- An absent filter accepts every value; a present one must equal it. -/
def optFilterEq (filt : Option String) (v : String) : Bool :=
  match filt with
  | none => true
  | some t => v == t

/-- An absent filter accepts every cell; a present one must equal the text
cell with its value. -/
def optFilterEqCol (filt : Option String) (v : Option SqlValue) : Bool :=
  match filt with
  | none => true
  | some t => v == some (SqlValue.textV t)

/-- "Row matches the present filters" for `queryTrialJobEvent`. -/
def trialJobEventMatches (trialJobId : Option String) (event : Option String)
    (r : TrialJobEventRow) : Bool :=
  optFilterEq trialJobId r.trialJobId && optFilterEq event r.event

/-- "Row matches the present filters" for `queryMetricData`. -/
def metricDataMatches (trialJobId : Option String) (metricType : Option String)
    (r : MetricDataRow) : Bool :=
  optFilterEqCol trialJobId r.trialJobId && optFilterEqCol metricType r.type

/-- A well-formed metric envelope: the fields `storeMetricData` expects on
the parsed document. -/
structure MetricEnvelope where
  trialJobId : String
  parameterId : String
  type : String
  sequence : Int
  data : Json

/-- The serialized-envelope JSON document for a well-formed envelope. -/
def metricEnvelopeJson (env : MetricEnvelope) : Json :=
  Json.obj [("trialJobId", Json.str env.trialJobId),
    ("parameterId", Json.str env.parameterId),
    ("type", Json.str env.type),
    ("sequence", Json.num env.sequence),
    ("data", env.data)]

/-- The `MetricData` row `storeMetricData` inserts for a well-formed
envelope: the payload column holds the `JSON.stringify` of the payload. -/
def storedMetricRow (env : MetricEnvelope) (now : Int) : MetricDataRow :=
  { timestamp := now
    trialJobId := some (.textV env.trialJobId)
    parameterId := some (.textV env.parameterId)
    type := some (.textV env.type)
    sequence := some (.intV env.sequence)
    data := some (.textV (jsonStringify env.data)) }

/-! ### Round trip of the JSON codec -/

theorem digitVal_digitChar (d : Nat) (h : d < 10) : digitVal (digitChar d) = d := by
  interval_cases d <;> rfl

theorem isDigitC_digitChar (d : Nat) (h : d < 10) : isDigitC (digitChar d) = true := by
  interval_cases d <;> rfl

theorem natDigitsAux_acc (fuel : Nat) :
    ∀ (n : Nat) (acc : List Char),
      natDigitsAux fuel n acc = natDigitsAux fuel n [] ++ acc := by
  induction fuel with
  | zero => intro n acc; rfl
  | succ fuel ih =>
    intro n acc
    by_cases h : n < 10
    · simp [natDigitsAux, h]
    · simp only [natDigitsAux, if_neg h]
      rw [ih (n / 10) (digitChar (n % 10) :: acc), ih (n / 10) [digitChar (n % 10)]]
      simp

theorem natDigitsAux_ne_nil (fuel n : Nat) (acc : List Char) (h : acc ≠ []) :
    natDigitsAux fuel n acc ≠ [] := by
  induction fuel generalizing n acc with
  | zero => exact h
  | succ fuel ih =>
    by_cases h10 : n < 10
    · simp [natDigitsAux, h10]
    · simp only [natDigitsAux, if_neg h10]
      exact ih (n / 10) _ (by simp)

theorem natToChars_ne_nil (n : Nat) : natToChars n ≠ [] := by
  unfold natToChars
  by_cases h10 : n < 10
  · simp [natDigitsAux, h10]
  · simp only [natDigitsAux, if_neg h10]
    exact natDigitsAux_ne_nil _ _ _ (by simp)

theorem natDigitsAux_digits (fuel : Nat) :
    ∀ (n : Nat) (acc : List Char), (∀ c ∈ acc, isDigitC c = true) →
      ∀ c ∈ natDigitsAux fuel n acc, isDigitC c = true := by
  induction fuel with
  | zero => intro n acc hacc; exact hacc
  | succ fuel ih =>
    intro n acc hacc c hc
    by_cases h10 : n < 10
    · simp only [natDigitsAux, if_pos h10] at hc
      rcases List.mem_cons.mp hc with hc | hc
      · exact hc ▸ isDigitC_digitChar n h10
      · exact hacc c hc
    · simp only [natDigitsAux, if_neg h10] at hc
      refine ih (n / 10) _ ?_ c hc
      intro c' hc'
      rcases List.mem_cons.mp hc' with hc' | hc'
      · exact hc' ▸ isDigitC_digitChar (n % 10) (Nat.mod_lt n (by omega))
      · exact hacc c' hc'

theorem natToChars_digits (n : Nat) : ∀ c ∈ natToChars n, isDigitC c = true :=
  natDigitsAux_digits (n + 1) n [] (by simp)

theorem charsVal_natDigitsAux (fuel : Nat) :
    ∀ n : Nat, n < fuel → charsVal (natDigitsAux fuel n []) = n := by
  induction fuel with
  | zero => intro n h; omega
  | succ fuel ih =>
    intro n h
    by_cases h10 : n < 10
    · simp only [natDigitsAux, if_pos h10]
      simp [charsVal, digitVal_digitChar n h10]
    · simp only [natDigitsAux, if_neg h10]
      rw [natDigitsAux_acc]
      have hdiv : n / 10 < fuel := by
        have : n / 10 < n := Nat.div_lt_self (by omega) (by omega)
        omega
      have hval := ih (n / 10) hdiv
      simp only [charsVal] at hval ⊢
      rw [List.foldl_append, hval]
      simp [digitVal_digitChar (n % 10) (Nat.mod_lt n (by omega))]
      omega

theorem charsVal_natToChars (n : Nat) : charsVal (natToChars n) = n :=
  charsVal_natDigitsAux (n + 1) n (Nat.lt_succ_self n)

theorem takeWhile_digits_append (ds : List Char) (rest : List Char)
    (hds : ∀ c ∈ ds, isDigitC c = true) (hrest : headDigit rest = false) :
    (ds ++ rest).takeWhile isDigitC = ds ∧ (ds ++ rest).dropWhile isDigitC = rest := by
  induction ds with
  | nil =>
    simp only [List.nil_append]
    cases rest with
    | nil => simp
    | cons c cs =>
      simp only [headDigit] at hrest
      simp [List.takeWhile, List.dropWhile, hrest]
  | cons d ds ih =>
    have hd : isDigitC d = true := hds d (by simp)
    have := ih (fun c hc => hds c (by simp [hc]))
    simp [List.takeWhile, List.dropWhile, hd, this.1, this.2]

theorem parseNat_spec (n : Nat) (rest : List Char) (hrest : headDigit rest = false) :
    parseNat (natToChars n ++ rest) = some (n, rest) := by
  have h := takeWhile_digits_append (natToChars n) rest (natToChars_digits n) hrest
  unfold parseNat
  rw [h.1, h.2]
  have hne := natToChars_ne_nil n
  have hval := charsVal_natToChars n
  cases hcs : natToChars n with
  | nil => exact absurd hcs hne
  | cons c cs =>
    rw [hcs] at hval
    simp [hval]

theorem dropLit_self (lit : List Char) (cs : List Char) :
    dropLit lit (lit ++ cs) = some cs := by
  induction lit with
  | nil => rfl
  | cons l ls ih => simp [dropLit, ih]

theorem parseStrChars_escape (cs : List Char) (rest : List Char) :
    parseStrChars (escapeChars cs ++ '"' :: rest) = some (cs, rest) := by
  induction cs with
  | nil =>
    show parseStrChars ('"' :: rest) = some ([], rest)
    rw [parseStrChars.eq_def]; simp
  | cons c cs ih =>
    by_cases hc : c = '"' ∨ c = '\\'
    · simp only [escapeChars, escapeChar, if_pos hc, List.cons_append, List.append_assoc,
        List.nil_append]
      rw [parseStrChars.eq_def]
      simp [hc, ih]
    · simp only [escapeChars, escapeChar, if_neg hc, List.cons_append, List.nil_append]
      push_neg at hc
      rw [parseStrChars.eq_def]
      simp [hc.1, hc.2, ih]

theorem headDigit_cons (c : Char) (cs : List Char) : headDigit (c :: cs) = isDigitC c := rfl

theorem jfuel_pos (j : Json) : 1 ≤ jfuel j := by
  cases j <;> simp [jfuel]

theorem isDigitC_ne_special (c : Char) (h : isDigitC c = true) :
    c ≠ 'n' ∧ c ≠ 't' ∧ c ≠ 'f' ∧ c ≠ '"' ∧ c ≠ '[' ∧ c ≠ '\x7b' ∧ c ≠ '-' ∧
      c ≠ ']' ∧ c ≠ '\x7d' := by
  refine ⟨?_, ?_, ?_, ?_, ?_, ?_, ?_, ?_, ?_⟩ <;>
    (intro hEq; rw [hEq] at h; exact absurd h (by decide))

theorem natToChars_cons (n : Nat) :
    ∃ c cs, natToChars n = c :: cs ∧ isDigitC c = true := by
  cases hcs : natToChars n with
  | nil => exact absurd hcs (natToChars_ne_nil n)
  | cons c cs =>
    exact ⟨c, cs, rfl, natToChars_digits n c (by rw [hcs]; simp)⟩

theorem stringifyChars_head (j : Json) :
    ∃ c cs, stringifyChars j = c :: cs ∧ c ≠ ']' ∧ c ≠ '\x7d' := by
  cases j with
  | null =>
    exact ⟨'n', ['u','l','l'], by simp [stringifyChars, nullChars], by decide, by decide⟩
  | bool b =>
    cases b
    · exact ⟨'f', ['a','l','s','e'], by simp [stringifyChars, falseChars], by decide,
        by decide⟩
    · exact ⟨'t', ['r','u','e'], by simp [stringifyChars, trueChars], by decide, by decide⟩
  | num n =>
    cases n with
    | ofNat m =>
      obtain ⟨c, cs, hcs, hdig⟩ := natToChars_cons m
      have hne := isDigitC_ne_special c hdig
      exact ⟨c, cs, by simp [stringifyChars, intToChars, hcs], hne.2.2.2.2.2.2.2.1,
        hne.2.2.2.2.2.2.2.2⟩
    | negSucc m =>
      exact ⟨'-', natToChars (m + 1), by simp [stringifyChars, intToChars], by decide,
        by decide⟩
  | str s =>
    exact ⟨'"', escapeChars s.data ++ ['"'], by simp [stringifyChars], by decide, by decide⟩
  | arr xs =>
    exact ⟨'[', stringifyElems xs ++ [']'], by simp [stringifyChars], by decide, by decide⟩
  | obj ms =>
    exact ⟨'\x7b', stringifyMembers ms ++ ['\x7d'], by simp [stringifyChars], by decide,
      by decide⟩

theorem parseValue_natToChars (fuel m : Nat) (rest : List Char)
    (hrest : headDigit rest = false) :
    parseValue (fuel + 1) (natToChars m ++ rest) = some (Json.num (m : Int), rest) := by
  obtain ⟨c, cs, hcs, hdig⟩ := natToChars_cons m
  have hne := isDigitC_ne_special c hdig
  rw [hcs, List.cons_append, parseValue.eq_def]
  simp only [hne.1, hne.2.1, hne.2.2.1, hne.2.2.2.1, hne.2.2.2.2.1, hne.2.2.2.2.2.1,
    hne.2.2.2.2.2.2.1, if_false, ite_false]
  rw [← List.cons_append, ← hcs, parseNat_spec m rest hrest]
  rfl

theorem parseValue_stringify_num (fuel : Nat) (n : Int) (rest : List Char)
    (hrest : headDigit rest = false) :
    parseValue (fuel + 1) (stringifyChars (Json.num n) ++ rest) = some (Json.num n, rest) := by
  cases n with
  | ofNat m =>
    have h := parseValue_natToChars fuel m rest hrest
    simpa [stringifyChars, intToChars] using h
  | negSucc m =>
    simp only [stringifyChars, intToChars, List.cons_append]
    rw [parseValue.eq_def]
    simp [parseNat_spec (m + 1) rest hrest, Int.negSucc_eq]

theorem parseValue_stringify_str (fuel : Nat) (s : String) (rest : List Char) :
    parseValue (fuel + 1) (stringifyChars (Json.str s) ++ rest) = some (Json.str s, rest) := by
  obtain ⟨cs⟩ := s
  simp only [stringifyChars, List.cons_append, List.append_assoc, List.singleton_append]
  rw [parseValue.eq_def]
  simp [parseStrChars_escape]

theorem lfuel_pos (x : Json) (xs : List Json) : 1 ≤ lfuel (x :: xs) := by
  simp [lfuel]

theorem mfuel_pos (kv : String × Json) (ms : List (String × Json)) :
    1 ≤ mfuel (kv :: ms) := by
  obtain ⟨k, v⟩ := kv
  simp [mfuel]

/-- The joint round-trip statement for the three mutually recursive parsing
functions, proved by induction on the fuel. -/
theorem jsonRoundTripAux : ∀ fuel : Nat,
    (∀ j rest, jfuel j ≤ fuel → headDigit rest = false →
       parseValue fuel (stringifyChars j ++ rest) = some (j, rest)) ∧
    (∀ xs rest, xs ≠ [] → lfuel xs ≤ fuel →
       parseElems fuel (stringifyElems xs ++ ']' :: rest) = some (xs, rest)) ∧
    (∀ ms rest, ms ≠ [] → mfuel ms ≤ fuel →
       parseMembers fuel (stringifyMembers ms ++ '\x7d' :: rest) = some (ms, rest)) := by
  intro fuel
  induction fuel with
  | zero =>
    refine ⟨?_, ?_, ?_⟩
    · intro j _ hf _
      exact absurd (le_trans (jfuel_pos j) hf) (by omega)
    · intro xs _ hne hf
      cases xs with
      | nil => exact absurd rfl hne
      | cons x t => exact absurd (le_trans (lfuel_pos x t) hf) (by omega)
    · intro ms _ hne hf
      cases ms with
      | nil => exact absurd rfl hne
      | cons kv t => exact absurd (le_trans (mfuel_pos kv t) hf) (by omega)
  | succ fuel ih =>
    obtain ⟨ihV, ihE, ihM⟩ := ih
    refine ⟨?_, ?_, ?_⟩
    · intro j rest hf hrest
      cases j with
      | null =>
        simp only [stringifyChars, nullChars, List.cons_append]
        rw [parseValue.eq_def]
        simp [show dropLit ['u','l','l'] ('u' :: 'l' :: 'l' :: rest) = some rest from
          dropLit_self ['u','l','l'] rest]
      | bool b =>
        cases b
        · simp only [stringifyChars, falseChars, List.cons_append]
          rw [parseValue.eq_def]
          simp [show dropLit ['a','l','s','e'] ('a' :: 'l' :: 's' :: 'e' :: rest) = some rest
            from dropLit_self ['a','l','s','e'] rest]
        · simp only [stringifyChars, trueChars, List.cons_append]
          rw [parseValue.eq_def]
          simp [show dropLit ['r','u','e'] ('r' :: 'u' :: 'e' :: rest) = some rest from
            dropLit_self ['r','u','e'] rest]
      | num n => exact parseValue_stringify_num fuel n rest hrest
      | str s => exact parseValue_stringify_str fuel s rest
      | arr xs =>
        cases xs with
        | nil =>
          simp only [stringifyChars, stringifyElems, List.nil_append, List.cons_append,
            List.singleton_append]
          rw [parseValue.eq_def]
          simp
        | cons x t =>
          have hlf : lfuel (x :: t) ≤ fuel := by
            simp only [jfuel] at hf; omega
          obtain ⟨c, cs, hcs, hc1, hc2⟩ := stringifyChars_head x
          obtain ⟨ds, hds⟩ : ∃ ds, stringifyElems (x :: t) ++ ']' :: rest = c :: ds := by
            cases t with
            | nil => exact ⟨cs ++ ']' :: rest, by simp [stringifyElems, hcs]⟩
            | cons y t' =>
              exact ⟨(cs ++ ',' :: stringifyElems (y :: t')) ++ ']' :: rest,
                by simp [stringifyElems, hcs]⟩
          have hmain := ihE (x :: t) rest (by simp) hlf
          simp only [stringifyChars, List.cons_append, List.append_assoc,
            List.singleton_append, List.nil_append]
          rw [parseValue.eq_def]
          rw [show stringifyElems (x :: t) ++ ']' :: rest = c :: ds from hds]
          simp only [if_neg (by decide : ¬('[' : Char) = 'n'),
            if_neg (by decide : ¬('[' : Char) = 't'), if_neg (by decide : ¬('[' : Char) = 'f'),
            if_neg (by decide : ¬('[' : Char) = '"'), if_pos rfl, if_neg hc1]
          rw [← hds, hmain]
          rfl
      | obj ms =>
        cases ms with
        | nil =>
          simp only [stringifyChars, stringifyMembers, List.nil_append, List.cons_append,
            List.singleton_append]
          rw [parseValue.eq_def]
          simp
        | cons kv t =>
          have hmf : mfuel (kv :: t) ≤ fuel := by
            simp only [jfuel] at hf; omega
          obtain ⟨ds, hds⟩ : ∃ ds, stringifyMembers (kv :: t) ++ '\x7d' :: rest = '"' :: ds := by
            obtain ⟨k, v⟩ := kv
            cases t with
            | nil =>
              exact ⟨(escapeChars k.data ++ '"' :: ':' :: stringifyChars v) ++ '\x7d' :: rest,
                by simp [stringifyMembers]⟩
            | cons m t' =>
              exact ⟨((escapeChars k.data ++ '"' :: ':' :: stringifyChars v)
                  ++ ',' :: stringifyMembers (m :: t')) ++ '\x7d' :: rest,
                by simp [stringifyMembers]⟩
          have hmain := ihM (kv :: t) rest (by simp) hmf
          simp only [stringifyChars, List.cons_append, List.append_assoc,
            List.singleton_append, List.nil_append]
          rw [parseValue.eq_def]
          rw [show stringifyMembers (kv :: t) ++ '\x7d' :: rest = '"' :: ds from hds]
          simp only [if_neg (by decide : ¬('\x7b' : Char) = 'n'),
            if_neg (by decide : ¬('\x7b' : Char) = 't'),
            if_neg (by decide : ¬('\x7b' : Char) = 'f'),
            if_neg (by decide : ¬('\x7b' : Char) = '"'),
            if_neg (by decide : ¬('\x7b' : Char) = '['), if_pos rfl,
            if_neg (by decide : ¬('"' : Char) = '\x7d')]
          rw [← hds, hmain]
          rfl
    · intro xs rest hne hlf
      cases xs with
      | nil => exact absurd rfl hne
      | cons x t =>
        have hjx : jfuel x ≤ fuel := by
          simp only [lfuel] at hlf; omega
        cases t with
        | nil =>
          rw [parseElems.eq_def]
          simp only [stringifyElems]
          rw [ihV x (']' :: rest) hjx (by rw [headDigit_cons]; decide)]
          simp
        | cons y t' =>
          have hlt : lfuel (y :: t') ≤ fuel := by
            simp only [lfuel] at hlf ⊢; omega
          rw [parseElems.eq_def]
          simp only [stringifyElems, List.cons_append, List.append_assoc]
          rw [ihV x (',' :: (stringifyElems (y :: t') ++ ']' :: rest)) hjx
            (by rw [headDigit_cons]; decide)]
          simp only [if_pos rfl]
          rw [ihE (y :: t') rest (by simp) hlt]
          rfl
    · intro ms rest hne hmf
      cases ms with
      | nil => exact absurd rfl hne
      | cons kv t =>
        obtain ⟨k, v⟩ := kv
        obtain ⟨kcs⟩ := k
        have hjv : jfuel v ≤ fuel := by
          simp only [mfuel] at hmf; omega
        cases t with
        | nil =>
          rw [parseMembers.eq_def]
          rw [show stringifyMembers [(String.mk kcs, v)] ++ '\x7d' :: rest
              = '"' :: (escapeChars kcs
                  ++ '"' :: (':' :: (stringifyChars v ++ '\x7d' :: rest))) from by
            simp [stringifyMembers]]
          simp [parseStrChars_escape kcs (':' :: (stringifyChars v ++ '\x7d' :: rest)),
            ihV v ('\x7d' :: rest) hjv (by rw [headDigit_cons]; decide)]
        | cons m t' =>
          have hmt : mfuel (m :: t') ≤ fuel := by
            simp only [mfuel] at hmf ⊢; omega
          rw [parseMembers.eq_def]
          rw [show stringifyMembers ((String.mk kcs, v) :: m :: t') ++ '\x7d' :: rest
              = '"' :: (escapeChars kcs ++ '"' :: (':' :: (stringifyChars v
                  ++ ',' :: (stringifyMembers (m :: t') ++ '\x7d' :: rest)))) from by
            simp [stringifyMembers]]
          simp [parseStrChars_escape kcs
              (':' :: (stringifyChars v ++ ',' :: (stringifyMembers (m :: t') ++ '\x7d' :: rest))),
            ihV v (',' :: (stringifyMembers (m :: t') ++ '\x7d' :: rest)) hjv
              (by rw [headDigit_cons]; decide),
            ihM (m :: t') rest (by simp) hmt]

theorem lfuel_le_of (xs : List Json)
    (h : ∀ x ∈ xs, jfuel x ≤ (stringifyChars x).length) :
    lfuel xs ≤ (stringifyElems xs).length + 1 := by
  induction xs with
  | nil => simp [lfuel]
  | cons x t ih =>
    have hx := h x (by simp)
    cases t with
    | nil => simp only [lfuel, stringifyElems]; omega
    | cons y t' =>
      have ih' := ih (fun z hz => h z (by simp [hz]))
      simp only [lfuel, stringifyElems, List.length_append, List.length_cons] at ih' ⊢
      omega

theorem mfuel_le_of (ms : List (String × Json))
    (h : ∀ kv ∈ ms, jfuel kv.2 ≤ (stringifyChars kv.2).length) :
    mfuel ms ≤ (stringifyMembers ms).length + 1 := by
  induction ms with
  | nil => simp [mfuel]
  | cons kv t ih =>
    obtain ⟨k, v⟩ := kv
    have hv := h (k, v) (by simp)
    cases t with
    | nil =>
      simp only [mfuel, stringifyMembers, List.length_cons, List.length_append] at hv ⊢
      omega
    | cons m t' =>
      have ih' := ih (fun z hz => h z (by simp [hz]))
      simp only [mfuel, stringifyMembers, List.length_cons, List.length_append] at ih' hv ⊢
      omega

theorem json_sizeOf_pos (j : Json) : 1 ≤ sizeOf j := by
  cases j <;> simp <;> omega

theorem jfuel_le_size : ∀ (n : Nat) (j : Json), sizeOf j ≤ n →
    jfuel j ≤ (stringifyChars j).length := by
  intro n
  induction n with
  | zero =>
    intro j hj
    exact absurd (le_trans (json_sizeOf_pos j) hj) (by omega)
  | succ n ih =>
    intro j hj
    cases j with
    | null => simp [jfuel, stringifyChars, nullChars]
    | bool b => cases b <;> simp [jfuel, stringifyChars, trueChars, falseChars]
    | num m =>
      simp only [jfuel, stringifyChars]
      cases m with
      | ofNat k =>
        have := List.length_pos.mpr (natToChars_ne_nil k)
        simpa [intToChars] using this
      | negSucc k => simp [intToChars]
    | str s => simp [jfuel, stringifyChars]
    | arr xs =>
      have hxs : ∀ x ∈ xs, jfuel x ≤ (stringifyChars x).length := by
        intro x hx
        refine ih x ?_
        have h1 : sizeOf x < sizeOf xs := List.sizeOf_lt_of_mem hx
        have h2 : sizeOf (Json.arr xs) = 1 + sizeOf xs := by simp
        omega
      have := lfuel_le_of xs hxs
      simp only [jfuel, stringifyChars, List.length_cons, List.length_append]
      simp at this ⊢
      omega
    | obj ms =>
      have hms : ∀ kv ∈ ms, jfuel kv.2 ≤ (stringifyChars kv.2).length := by
        intro kv hkv
        refine ih kv.2 ?_
        have h1 : sizeOf kv < sizeOf ms := List.sizeOf_lt_of_mem hkv
        have h2 : sizeOf (Json.obj ms) = 1 + sizeOf ms := by simp
        have h3 : sizeOf kv.2 < sizeOf kv := by
          obtain ⟨k, v⟩ := kv
          simp
        omega
      have := mfuel_le_of ms hms
      simp only [jfuel, stringifyChars, List.length_cons, List.length_append]
      simp at this ⊢
      omega

theorem jfuel_le (j : Json) : jfuel j ≤ (stringifyChars j).length :=
  jfuel_le_size (sizeOf j) j le_rfl

/-- The JSON codec round trip the storage engine relies on: parsing back a
serialized document yields the original document. -/
theorem jsonParse_jsonStringify (j : Json) : jsonParse (jsonStringify j) = some j := by
  unfold jsonParse jsonStringify
  have hdata : (String.mk (stringifyChars j)).data = stringifyChars j := rfl
  rw [hdata]
  have h := (jsonRoundTripAux ((stringifyChars j).length + 1)).1 j []
    (by have := jfuel_le j; omega) rfl
  rw [List.append_nil] at h
  rw [h]

/-! ## Helper lemmas about the model -/

theorem sequenceOptions_of_isSome {α β : Type} (f : α → Option β) :
    ∀ l : List α, (∀ x ∈ l, (f x).isSome) →
      ∃ ys, sequenceOptions (l.map f) = some ys ∧ l.map f = ys.map some := by
  intro l
  induction l with
  | nil => exact fun _ => ⟨[], rfl, rfl⟩
  | cons x t ih =>
    intro h
    obtain ⟨ys, h1, h2⟩ := ih (fun z hz => h z (by simp [hz]))
    obtain ⟨v, hv⟩ := Option.isSome_iff_exists.mp (h x (by simp))
    refine ⟨v :: ys, ?_, ?_⟩
    · simp [sequenceOptions, hv, h1]
    · simp [hv, h2]

theorem SqlDB.runInits_some (t : InitTaskInfo) :
    ∀ (calls : List (Bool × String × InitEnv)) (i : Nat),
      SqlDB.runInits (some t) i calls =
        calls.map (fun _ =>
          ({ st := some t, returned := some t.id, actions := [] } : InitCallResult)) := by
  intro calls
  induction calls with
  | nil => intro i; rfl
  | cons c rest ih =>
    intro i
    obtain ⟨cn, d, env⟩ := c
    simp only [SqlDB.runInits, SqlDB.init, List.map]
    exact congrArg _ (ih (i + 1))

theorem SqlDB.init_none_st_isSome (i : Nat) (c : Bool) (d : String) (env : InitEnv) :
    (SqlDB.init none i c d env).st.isSome := by
  obtain ⟨de, oe, ee⟩ := env
  cases de <;> cases oe <;> cases c <;> simp [SqlDB.init]

theorem SqlDB.init_none_st_id (i : Nat) (c : Bool) (d : String) (env : InitEnv) :
    (SqlDB.init none i c d env).st.map InitTaskInfo.id = some i := by
  obtain ⟨de, oe, ee⟩ := env
  cases de <;> cases oe <;> cases c <;> simp [SqlDB.init]

theorem SqlDB.init_none_returned (i : Nat) (c : Bool) (d : String) (env : InitEnv) :
    ∀ pid, (SqlDB.init none i c d env).returned = some pid → pid = i := by
  obtain ⟨de, oe, ee⟩ := env
  cases de <;> cases oe <;> cases c <;> simp [SqlDB.init] <;> omega

theorem SqlDB.init_none_actions (i : Nat) (c : Bool) (d : String) (env : InitEnv) :
    countOpens (SqlDB.init none i c d env).actions ≤ 1 ∧
    countExecs (SqlDB.init none i c d env).actions ≤ 1 := by
  obtain ⟨de, oe, ee⟩ := env
  cases de <;> cases oe <;> cases c <;>
    simp [SqlDB.init, countOpens, countExecs, isOpenAction, isExecAction]

theorem flatten_map_nil {α β : Type} (l : List α) :
    (l.map (fun _ => ([] : List β))).flatten = [] := by
  induction l with
  | nil => rfl
  | cons x t ih => simp [ih]

theorem flatten_actions_const {γ : Type} (t : InitTaskInfo) (l : List γ) :
    (List.map InitCallResult.actions
      (l.map (fun _ =>
        ({ st := some t, returned := some t.id, actions := [] } : InitCallResult)))).flatten
      = [] := by
  induction l with
  | nil => rfl
  | cons a g ih => simp [ih]

/-! ## The claims -/

/-- C1: the spec demands that when the file open succeeds but the DDL
execution fails, `init` rejects the shared future with the DDL error.  The
source does not: the exec callback resolves with the outer open-callback
`err` (which is `null` on that path) instead of its own `error` parameter,
so the shared future RESOLVES despite the failed DDL script.  This theorem
evaluates the embedded `init` at such a failing input: `createNew = true`,
the open succeeds, the exec callback receives `SQLITE_ERROR`, the DDL
script was executed — and the task ends `resolved`, not rejected. -/
theorem SqlDB.init_ddl_failure_still_resolves :
    SqlDB.init none 0 true "logdir" ⟨true, none, some ⟨"SQLITE_ERROR: near create"⟩⟩ =
      ⟨some ⟨0, DeferredVoidState.resolved⟩, some 0,
        [DriverAction.openDb 6 "logdir/nni.sqlite", DriverAction.execScript createTables]⟩ :=
  rfl

/-- C2: `init` is single-flight.  For every sequence of calls on one fresh
store instance: every returned promise is the one allocated by the first
call (identity 0); no call after the first performs any driver action; and
over the whole sequence the file open and the DDL-script execution each
happen at most once (necessarily within the first call). -/
theorem SqlDB.init_single_flight (first : Bool × String × InitEnv)
    (rest : List (Bool × String × InitEnv)) :
    (∀ r ∈ SqlDB.runInits none 0 (first :: rest), ∀ pid, r.returned = some pid → pid = 0) ∧
    (∀ r ∈ (SqlDB.runInits none 0 (first :: rest)).drop 1, r.actions = []) ∧
    countOpens ((SqlDB.runInits none 0 (first :: rest)).map InitCallResult.actions).flatten ≤ 1 ∧
    countExecs ((SqlDB.runInits none 0 (first :: rest)).map InitCallResult.actions).flatten ≤ 1 := by
  obtain ⟨c, d, env⟩ := first
  have hrun : SqlDB.runInits none 0 ((c, d, env) :: rest) =
      SqlDB.init none 0 c d env ::
        SqlDB.runInits (SqlDB.init none 0 c d env).st 1 rest := rfl
  obtain ⟨t, ht⟩ := Option.isSome_iff_exists.mp (SqlDB.init_none_st_isSome 0 c d env)
  have hid : t.id = 0 := by
    have h := SqlDB.init_none_st_id 0 c d env
    rw [ht] at h
    simpa using h
  rw [hrun, ht, SqlDB.runInits_some]
  have hacts := SqlDB.init_none_actions 0 c d env
  refine ⟨?_, ?_, ?_, ?_⟩
  · intro r hr pid hpid
    rcases List.mem_cons.mp hr with hr | hr
    · exact SqlDB.init_none_returned 0 c d env pid (hr ▸ hpid)
    · obtain ⟨x, _, hxr⟩ := List.mem_map.mp hr
      rw [← hxr] at hpid
      simp at hpid
      omega
  · intro r hr
    simp only [List.drop_succ_cons, List.drop_zero] at hr
    obtain ⟨x, _, hxr⟩ := List.mem_map.mp hr
    rw [← hxr]
  · simp only [List.map_cons, List.flatten_cons]
    rw [flatten_actions_const t rest, List.append_nil]
    exact hacts.1
  · simp only [List.map_cons, List.flatten_cons]
    rw [flatten_actions_const t rest, List.append_nil]
    exact hacts.2

/-- Witness for C2 at a concrete two-call sequence (both calls with
`createNew`, directory present, no driver errors): the second call performs
no driver actions, and the whole sequence opens the file at most once. -/
theorem SqlDB.init_single_flight_witness :
    (⟨some ⟨0, DeferredVoidState.resolved⟩, some 0, []⟩ : InitCallResult).actions = [] ∧
    countOpens ((SqlDB.runInits none 0
        [(true, "d", ⟨true, none, none⟩), (true, "d", ⟨true, none, none⟩)]).map
        InitCallResult.actions).flatten ≤ 1 :=
  ⟨(SqlDB.init_single_flight (true, "d", ⟨true, none, none⟩)
        [(true, "d", ⟨true, none, none⟩)]).2.1
      ⟨some ⟨0, DeferredVoidState.resolved⟩, some 0, []⟩ (by decide),
    (SqlDB.init_single_flight (true, "d", ⟨true, none, none⟩)
        [(true, "d", ⟨true, none, none⟩)]).2.2.1⟩

/-- C8: the callback-to-future bridge `SqlDB.resolve`: (a) a non-null
error rejects the future with that error, whatever the rows and loader;
(b) with no error and no loader it resolves a void future; (c) with no
error, rows, and a loader it resolves with the loader mapped over every
row, preserving order and length. -/
theorem SqlDB.resolve_spec {R T : Type} :
    (∀ (e : SqlError) (rows : Option (List R)) (loader : Option (R → T)),
       SqlDB.resolve (some e) rows loader = PromState.rejected e) ∧
    (∀ rows : Option (List R), @SqlDB.resolve R T none rows none = PromState.resolvedVoid) ∧
    (∀ (rs : List R) (loader : R → T),
       SqlDB.resolve none (some rs) (some loader) = PromState.resolvedList (rs.map loader) ∧
       (rs.map loader).length = rs.length) :=
  ⟨fun _ _ _ => rfl, fun _ => rfl, fun rs _ => ⟨rfl, List.length_map rs _⟩⟩

/-- C9: the `trialJobId` parameter of `storeMetricData` is dead: two calls
with the same envelope string and the same clock but different first
arguments behave identically (same thrown error or same inserted row and
future state). -/
theorem SqlDB.storeMetricData_ignores_param (db : DBState) (now : Int)
    (t1 t2 : String) (s : String) (h : t1 ≠ t2) :
    SqlDB.storeMetricData db now t1 s = SqlDB.storeMetricData db now t2 s := rfl

/-- Witness for C9 at concrete distinct parameters. -/
theorem SqlDB.storeMetricData_ignores_param_witness :
    ("a" : String) ≠ "b" ∧
    SqlDB.storeMetricData ⟨[], [], []⟩ 0 "a" "x" =
      SqlDB.storeMetricData ⟨[], [], []⟩ 0 "b" "x" :=
  ⟨by decide, SqlDB.storeMetricData_ignores_param ⟨[], [], []⟩ 0 "a" "b" "x" (by decide)⟩

/-- C6 counterexample.  The claim says every envelope that lacks the
required fields makes `storeMetricData` fail the returned future and insert
no row.  The code performs no field validation: the parseable envelope
`"{}"` (written here as its character list) inserts a row of NULL columns
and the future RESOLVES.  Moreover an unparseable envelope does not reject
any returned future either — `JSON.parse` throws synchronously, so no
future exists. -/
theorem SqlDB.storeMetricData_no_validation_counterexample :
    SqlDB.storeMetricData ⟨[], [], []⟩ 7 "tid" (String.mk ['\x7b', '\x7d']) =
      Except.ok (⟨[], [], [⟨7, none, none, none, none, none⟩]⟩, PromState.resolvedVoid) ∧
    SqlDB.storeMetricData ⟨[], [], []⟩ 7 "tid" "not valid json" =
      Except.error JsError.jsonParseError :=
  ⟨rfl, rfl⟩

/-- C6 (amended): for every input string that is not parseable JSON,
`storeMetricData` throws the parsing error synchronously — before any
future is created — and inserts no row (no table state is produced at
all); parseable envelopes are not validated for required fields. -/
theorem SqlDB.storeMetricData_invalid_json_throws (db : DBState) (now : Int)
    (tid s : String) (h : jsonParse s = none) :
    SqlDB.storeMetricData db now tid s = Except.error JsError.jsonParseError := by
  simp only [SqlDB.storeMetricData, h]
  rfl

/-- Witness for the amended C6 at the spec's own example input. -/
theorem SqlDB.storeMetricData_invalid_json_throws_witness :
    jsonParse "not valid json" = none ∧
    SqlDB.storeMetricData ⟨[], [], []⟩ 0 "t" "not valid json" =
      Except.error JsError.jsonParseError :=
  ⟨rfl, SqlDB.storeMetricData_invalid_json_throws ⟨[], [], []⟩ 0 "t" "not valid json" rfl⟩

/-- C7: the two event/metric queries return exactly the rows matching the
present filters — all rows with no filter, the event-only, id-only, or
conjunctive filter otherwise — each loaded through the row loader, in
stored order. -/
theorem SqlDB.query_four_shape_filters (db : DBState) (t e m : Option String) :
    SqlDB.queryTrialJobEvent db t e =
      PromState.resolvedList
        ((db.trialJobEvents.filter (fun r => trialJobEventMatches t e r)).map
          loadTrialJobEvent) ∧
    SqlDB.queryMetricData db t m =
      PromState.resolvedList
        ((db.metricData.filter (fun r => metricDataMatches t m r)).map loadMetricData) := by
  constructor
  · cases t <;> cases e <;>
      simp [SqlDB.queryTrialJobEvent, SqlDB.resolve, trialJobEventMatches, optFilterEq]
  · cases t <;> cases m <;>
      simp [SqlDB.queryMetricData, SqlDB.resolve, metricDataMatches, optFilterEqCol]

theorem loadExperimentProfile_isSome_of_parse {r : ExpRow}
    (h : (jsonParse r.params).isSome) : (loadExperimentProfile r).isSome := by
  simp only [loadExperimentProfile]
  obtain ⟨v, hv⟩ := Option.isSome_iff_exists.mp h
  simp [hv]

theorem filter_id_parse {db : DBState} {id : String}
    (hparse : ∀ r ∈ db.experimentProfiles, r.id = id → (jsonParse r.params).isSome) :
    ∀ r ∈ db.experimentProfiles.filter (fun r => r.id == id),
      (loadExperimentProfile r).isSome := by
  intro r hr
  obtain ⟨hmem, hid⟩ := List.mem_filter.mp hr
  exact loadExperimentProfile_isSome_of_parse (hparse r hmem (by simpa using hid))

theorem filter_idrev_parse {db : DBState} {id : String} {rev : Int}
    (hparse : ∀ r ∈ db.experimentProfiles, r.id = id → (jsonParse r.params).isSome) :
    ∀ r ∈ db.experimentProfiles.filter (fun r => r.id == id && r.revision == rev),
      (loadExperimentProfile r).isSome := by
  intro r hr
  obtain ⟨hmem, hpred⟩ := List.mem_filter.mp hr
  have hid : r.id = id := by
    have := (Bool.and_eq_true _ _).mp hpred
    simpa using this.1
  exact loadExperimentProfile_isSome_of_parse (hparse r hmem hid)

theorem filter_idrev_length_le_one (l : List ExpRow) (id : String) (rev : Int)
    (hdist : l.Pairwise (fun a b => ¬(a.id = b.id ∧ a.revision = b.revision))) :
    (l.filter (fun r => r.id == id && r.revision == rev)).length ≤ 1 := by
  induction l with
  | nil => simp
  | cons a t ih =>
    have hpw := List.pairwise_cons.mp hdist
    by_cases hpass : (a.id == id && a.revision == rev) = true
    · have hta : t.filter (fun r => r.id == id && r.revision == rev) = [] := by
        refine List.filter_eq_nil_iff.mpr ?_
        intro b hb hpb
        have hb1 := (Bool.and_eq_true _ _).mp hpb
        have ha1 := (Bool.and_eq_true _ _).mp hpass
        refine hpw.1 b hb ⟨?_, ?_⟩
        · have h1 : a.id = id := by simpa using ha1.1
          have h2 : b.id = id := by simpa using hb1.1
          rw [h1, h2]
        · have h1 : a.revision = rev := by simpa using ha1.2
          have h2 : b.revision = rev := by simpa using hb1.2
          rw [h1, h2]
      simp [List.filter_cons, hpass, hta]
    · simp only [List.filter_cons, hpass, if_neg]
      simpa using ih hpw.2

/-- Mapping a date to its epoch value and back is the identity. -/
theorem optDate_roundtrip (o : Option JsDate) : (o.map JsDate.ms).map JsDate.mk = o := by
  cases o <;> rfl

/-- Composition form of `optDate_roundtrip`. -/
theorem optDate_roundtrip_comp (o : Option JsDate) :
    Option.map (JsDate.mk ∘ JsDate.ms) o = o := by
  cases o <;> rfl

/-- C3 (amended): with a parseable table, the unfiltered-by-revision query
resolves with exactly the rows whose id matches, sorted by the stored
revision descending; the revision-filtered query resolves with exactly the
rows matching both, as a list — which has at most one element whenever no
two stored rows share an id and revision (the schema does not enforce
this). -/
theorem SqlDB.queryExperimentProfile_spec (db : DBState) (id : String) (rev : Int)
    (hparse : ∀ r ∈ db.experimentProfiles, r.id = id → (jsonParse r.params).isSome) :
    (∃ rows ps,
      SqlDB.queryExperimentProfile db id none = PromState.resolvedList ps ∧
      rows.Perm (db.experimentProfiles.filter (fun r => r.id == id)) ∧
      List.Sorted revDesc rows ∧
      rows.map loadExperimentProfile = ps.map some) ∧
    (∃ ps,
      SqlDB.queryExperimentProfile db id (some rev) = PromState.resolvedList ps ∧
      (db.experimentProfiles.filter (fun r => r.id == id && r.revision == rev)).map
          loadExperimentProfile = ps.map some ∧
      (db.experimentProfiles.Pairwise
          (fun a b => ¬(a.id = b.id ∧ a.revision = b.revision)) → ps.length ≤ 1)) := by
  constructor
  · have hperm : ((db.experimentProfiles.filter (fun r => r.id == id)).insertionSort
        revDesc).Perm (db.experimentProfiles.filter (fun r => r.id == id)) :=
      List.perm_insertionSort revDesc _
    have hmem : ∀ r ∈ (db.experimentProfiles.filter (fun r => r.id == id)).insertionSort
        revDesc, (loadExperimentProfile r).isSome := by
      intro r hr
      exact filter_id_parse hparse r (hperm.mem_iff.mp hr)
    obtain ⟨ps, hseq, hmap⟩ := sequenceOptions_of_isSome loadExperimentProfile _ hmem
    refine ⟨_, ps, ?_, hperm, List.sorted_insertionSort revDesc _, hmap⟩
    simp only [SqlDB.queryExperimentProfile]
    simp [SqlDB.resolve, settleLoads, hseq]
  · obtain ⟨ps, hseq, hmap⟩ :=
      sequenceOptions_of_isSome loadExperimentProfile _ (filter_idrev_parse hparse)
    refine ⟨ps, ?_, hmap, ?_⟩
    · simp only [SqlDB.queryExperimentProfile]
      simp [SqlDB.resolve, settleLoads, hseq]
    · intro hdist
      have hlen := congrArg List.length hmap
      simp only [List.length_map] at hlen
      rw [← hlen]
      exact filter_idrev_length_le_one _ id rev hdist

/-- Witness for the amended C3 on a two-row table (revisions 1 and 2 for
`exp1`). -/
theorem SqlDB.queryExperimentProfile_spec_witness :
    (∀ r ∈ (⟨[⟨"1", "exp1", 0, none, none, 1⟩, ⟨"2", "exp1", 0, none, none, 2⟩], [], []⟩ :
        DBState).experimentProfiles, r.id = "exp1" → (jsonParse r.params).isSome) ∧
    ∃ ps, SqlDB.queryExperimentProfile
        ⟨[⟨"1", "exp1", 0, none, none, 1⟩, ⟨"2", "exp1", 0, none, none, 2⟩], [], []⟩
        "exp1" (some 2) = PromState.resolvedList ps ∧
      ((⟨[⟨"1", "exp1", 0, none, none, 1⟩, ⟨"2", "exp1", 0, none, none, 2⟩], [], []⟩ :
          DBState).experimentProfiles.filter
          (fun r => r.id == "exp1" && r.revision == 2)).map loadExperimentProfile =
        ps.map some ∧
      ((⟨[⟨"1", "exp1", 0, none, none, 1⟩, ⟨"2", "exp1", 0, none, none, 2⟩], [], []⟩ :
          DBState).experimentProfiles.Pairwise
          (fun a b => ¬(a.id = b.id ∧ a.revision = b.revision)) → ps.length ≤ 1) :=
  ⟨by decide,
    (SqlDB.queryExperimentProfile_spec
      ⟨[⟨"1", "exp1", 0, none, none, 1⟩, ⟨"2", "exp1", 0, none, none, 2⟩], [], []⟩
      "exp1" 2 (by decide)).2⟩

/-- C3 counterexample: the claim's "zero or one row" is false as stated —
with two stored rows sharing `id = "exp1"` and `revision = 1` (the schema
has no uniqueness constraint), `queryExperimentProfile("exp1", 1)` resolves
with a two-element list. -/
theorem SqlDB.queryExperimentProfile_duplicate_counterexample :
    SqlDB.queryExperimentProfile
        ⟨[⟨"1", "exp1", 0, none, none, 1⟩, ⟨"1", "exp1", 0, none, none, 1⟩], [], []⟩
        "exp1" (some 1) =
      PromState.resolvedList
        [⟨Json.num 1, "exp1", 0, none, none, 1⟩, ⟨Json.num 1, "exp1", 0, none, none, 1⟩] ∧
    ([⟨Json.num 1, "exp1", 0, none, none, 1⟩,
      ⟨Json.num 1, "exp1", 0, none, none, 1⟩] : List ExperimentProfile).length = 2 :=
  ⟨rfl, rfl⟩

/-- C4: `queryLatestExperimentProfile` resolves with `undefined` (an absent
value), not an error, when no row matches the id; and when rows exist (and
their stored params parse), it resolves with the loaded row of maximum
revision among the id's rows — the head of the descending-ordered query. -/
theorem SqlDB.queryLatestExperimentProfile_spec (db : DBState) (id : String) :
    (db.experimentProfiles.filter (fun r => r.id == id) = [] →
      SqlDB.queryLatestExperimentProfile db id = AsyncOutcome.resolved none) ∧
    ((∀ r ∈ db.experimentProfiles, r.id = id → (jsonParse r.params).isSome) →
      ∀ r₁ ∈ db.experimentProfiles.filter (fun r => r.id == id),
      ∃ p r₀, SqlDB.queryLatestExperimentProfile db id = AsyncOutcome.resolved (some p) ∧
        r₀ ∈ db.experimentProfiles.filter (fun r => r.id == id) ∧
        loadExperimentProfile r₀ = some p ∧
        ∀ r ∈ db.experimentProfiles.filter (fun r => r.id == id),
          r.revision ≤ r₀.revision) := by
  constructor
  · intro hempty
    simp [SqlDB.queryLatestExperimentProfile, SqlDB.queryExperimentProfile, hempty,
      SqlDB.resolve, settleLoads, sequenceOptions, List.insertionSort]
  · intro hparse r₁ hr₁
    have hperm : ((db.experimentProfiles.filter (fun r => r.id == id)).insertionSort
        revDesc).Perm (db.experimentProfiles.filter (fun r => r.id == id)) :=
      List.perm_insertionSort revDesc _
    have hsorted : List.Sorted revDesc
        ((db.experimentProfiles.filter (fun r => r.id == id)).insertionSort revDesc) :=
      List.sorted_insertionSort revDesc _
    have hmem : ∀ r ∈ (db.experimentProfiles.filter (fun r => r.id == id)).insertionSort
        revDesc, (loadExperimentProfile r).isSome := by
      intro r hr
      exact filter_id_parse hparse r (hperm.mem_iff.mp hr)
    obtain ⟨ps, hseq, hmap⟩ := sequenceOptions_of_isSome loadExperimentProfile _ hmem
    have hq : SqlDB.queryExperimentProfile db id none = PromState.resolvedList ps := by
      simp only [SqlDB.queryExperimentProfile]
      simp [SqlDB.resolve, settleLoads, hseq]
    cases hrows : (db.experimentProfiles.filter (fun r => r.id == id)).insertionSort
        revDesc with
    | nil =>
      exact absurd (hperm.mem_iff.mpr hr₁) (by rw [hrows]; simp)
    | cons r₀ rtail =>
      rw [hrows] at hmap hsorted
      cases ps with
      | nil => simp at hmap
      | cons p ptail =>
        simp only [List.map_cons, List.cons.injEq] at hmap
        refine ⟨p, r₀, ?_, ?_, hmap.1, ?_⟩
        · simp [SqlDB.queryLatestExperimentProfile, hq]
        · exact hperm.mem_iff.mp (by rw [hrows]; simp)
        · intro r hr
          have hrr : r ∈ r₀ :: rtail := by rw [← hrows]; exact hperm.mem_iff.mpr hr
          rcases List.mem_cons.mp hrr with hrr | hrr
          · rw [hrr]
          · exact List.rel_of_sorted_cons hsorted r hrr

/-- Witness for C4 on a two-row table: the latest profile for `exp1` is the
revision-2 row. -/
theorem SqlDB.queryLatestExperimentProfile_spec_witness :
    (∀ r ∈ (⟨[⟨"1", "exp1", 0, none, none, 1⟩, ⟨"2", "exp1", 0, none, none, 2⟩], [], []⟩ :
        DBState).experimentProfiles, r.id = "exp1" → (jsonParse r.params).isSome) ∧
    (⟨"1", "exp1", 0, none, none, 1⟩ : ExpRow) ∈
      (⟨[⟨"1", "exp1", 0, none, none, 1⟩, ⟨"2", "exp1", 0, none, none, 2⟩], [], []⟩ :
        DBState).experimentProfiles.filter (fun r => r.id == "exp1") ∧
    ∃ p r₀,
      SqlDB.queryLatestExperimentProfile
          ⟨[⟨"1", "exp1", 0, none, none, 1⟩, ⟨"2", "exp1", 0, none, none, 2⟩], [], []⟩
          "exp1" = AsyncOutcome.resolved (some p) ∧
      r₀ ∈ (⟨[⟨"1", "exp1", 0, none, none, 1⟩, ⟨"2", "exp1", 0, none, none, 2⟩], [], []⟩ :
          DBState).experimentProfiles.filter (fun r => r.id == "exp1") ∧
      loadExperimentProfile r₀ = some p ∧
      ∀ r ∈ (⟨[⟨"1", "exp1", 0, none, none, 1⟩, ⟨"2", "exp1", 0, none, none, 2⟩], [], []⟩ :
          DBState).experimentProfiles.filter (fun r => r.id == "exp1"),
        r.revision ≤ r₀.revision :=
  ⟨by decide, by decide,
    (SqlDB.queryLatestExperimentProfile_spec
        ⟨[⟨"1", "exp1", 0, none, none, 1⟩, ⟨"2", "exp1", 0, none, none, 2⟩], [], []⟩
        "exp1").2 (by decide) ⟨"1", "exp1", 0, none, none, 1⟩ (by decide)⟩

/-- C5: storing a profile and querying back by its id and revision yields
exactly one record; its params survive the JSON round trip intact, its
revision is the stored revision, and omitted start/end times come back
absent (`none`), never a sentinel — stated for any prior table having no
row with the same id and revision. -/
theorem SqlDB.storeExperimentProfile_roundtrip (db : DBState) (p : ExperimentProfile)
    (hfresh : ∀ r ∈ db.experimentProfiles, ¬(r.id = p.id ∧ r.revision = p.revision)) :
    SqlDB.queryExperimentProfile (SqlDB.storeExperimentProfile db p).1 p.id
        (some p.revision) =
      PromState.resolvedList
        [{ params := p.params, id := p.id, execDuration := p.execDuration,
           startTime := p.startTime, endTime := p.endTime, revision := p.revision }] := by
  have hfilter : db.experimentProfiles.filter
      (fun r => r.id == p.id && r.revision == p.revision) = [] := by
    refine List.filter_eq_nil_iff.mpr ?_
    intro r hr hpred
    have h := (Bool.and_eq_true _ _).mp hpred
    exact hfresh r hr ⟨by simpa using h.1, by simpa using h.2⟩
  simp only [SqlDB.storeExperimentProfile, SqlDB.queryExperimentProfile]
  rw [List.filter_append, hfilter, List.nil_append]
  simp [settleLoads, SqlDB.resolve, sequenceOptions, loadExperimentProfile,
    jsonParse_jsonStringify, optDate_roundtrip, optDate_roundtrip_comp]

/-- Witness for C5: the spec's own example — params with a number and a
list, id `exp1`, revision 1, both timestamps omitted — stored into an empty
table and queried back by `("exp1", 1)`. -/
theorem SqlDB.storeExperimentProfile_roundtrip_witness :
    (∀ r ∈ (⟨[], [], []⟩ : DBState).experimentProfiles,
      ¬(r.id = "exp1" ∧ r.revision = 1)) ∧
    SqlDB.queryExperimentProfile
        (SqlDB.storeExperimentProfile ⟨[], [], []⟩
          ⟨Json.obj [("lr", Json.num 1), ("layers", Json.arr [Json.num 1, Json.num 2,
            Json.num 3])], "exp1", 5, none, none, 1⟩).1 "exp1" (some 1) =
      PromState.resolvedList
        [⟨Json.obj [("lr", Json.num 1), ("layers", Json.arr [Json.num 1, Json.num 2,
          Json.num 3])], "exp1", 5, none, none, 1⟩] :=
  ⟨by simp,
    SqlDB.storeExperimentProfile_roundtrip ⟨[], [], []⟩
      ⟨Json.obj [("lr", Json.num 1), ("layers", Json.arr [Json.num 1, Json.num 2,
        Json.num 3])], "exp1", 5, none, none, 1⟩ (by simp)⟩

/-- C10: metric payloads do not round-trip as structured values: for every
well-formed envelope, `storeMetricData` stores `JSON.stringify(json.data)`
in the data column, and `queryMetricData` hands the column back verbatim
(`loadMetricData` does not parse it) — the queried record's `data` is the
serialized string of the payload, not the payload itself. -/
theorem SqlDB.storeMetricData_payload_serialized (db : DBState) (now : Int)
    (tid : String) (env : MetricEnvelope) :
    SqlDB.storeMetricData db now tid (jsonStringify (metricEnvelopeJson env)) =
      Except.ok ({ db with metricData := db.metricData ++ [storedMetricRow env now] },
        PromState.resolvedVoid) ∧
    SqlDB.queryMetricData
        { db with metricData := db.metricData ++ [storedMetricRow env now] } none none =
      PromState.resolvedList
        ((db.metricData ++ [storedMetricRow env now]).map loadMetricData) ∧
    (loadMetricData (storedMetricRow env now)).data =
      some (SqlValue.textV (jsonStringify env.data)) := by
  refine ⟨?_, ?_, rfl⟩
  · have hp := jsonParse_jsonStringify (metricEnvelopeJson env)
    simp only [metricEnvelopeJson] at hp
    simp [SqlDB.storeMetricData, metricEnvelopeJson, hp, jsGetField, lookupMember,
      bindJsValue, storedMetricRow, SqlDB.resolve, Bind.bind, Except.bind,
      Except.instMonad]
  · simp [SqlDB.queryMetricData, SqlDB.resolve]
